import Mathlib

/-!
Verification development for the Lyra chat client.

This file gives a shallow embedding of the streaming/session-update subsystem
of the repository (types.ts, services/aiService.ts, App.tsx,
components/ChatComponents.tsx) and proves the specified properties against it.

Modelling conventions:

* Machine integers (Date.now() timestamps) are Nat.
* JavaScript falsiness of an optional string (undefined or the empty string)
  is modelled by an Option String being none or some "".
* The network is modelled as data: the REST adapter receives a RestEnv
  describing the fetch outcome and the byte stream chunks delivered by
  reader.read() (each read is given as a list of characters, i.e. after
  TextDecoder.decode); the SDK adapter receives a GeminiEnv listing the
  streamed fragments.  Exceptions thrown by adapter code are modelled as the
  Option String component of the adapter result; callbacks are modelled as an
  emitted event trace.
* JSON.parse is embedded as a total fuel-indexed parser over the character
  list, covering the full JSON grammar (objects, arrays, strings with escape
  sequences, numbers as exact mantissa/exponent pairs, literals).
-/

namespace Lyra

/-! ## Data model (types.ts) -/

inductive ModelProvider where
  | Gemini
  | OpenAI
  | DeepSeek
deriving DecidableEq, Repr

inductive Role where
  | user
  | model
deriving DecidableEq, Repr

/-- A chat message.  The optional isError flag of the source is modelled as a
Bool (absent = false). -/
structure Message where
  id : String
  role : Role
  content : String
  timestamp : Nat
  image : Option String
  isError : Bool
deriving DecidableEq, Repr

structure ChatSession where
  id : String
  title : String
  messages : List Message
  createdAt : Nat
  updatedAt : Nat
  model : ModelProvider
deriving DecidableEq, Repr

structure UserProfile where
  name : String
  avatarUrl : Option String
deriving DecidableEq, Repr

/-- App settings.  apiKeys is the provider-to-secret mapping; an absent entry
is none. -/
structure AppSettings where
  apiKeys : ModelProvider → Option String
  systemInstruction : String
  activeModel : ModelProvider
  profile : UserProfile
  darkMode : Bool
  enterToSend : Bool

/-! ## JSON values and JSON.parse

The REST adapter calls JSON.parse on each data line.  We embed a JSON value
type and a parser for the full JSON grammar.  Numbers are kept exact as
mantissa times ten to the exp10 power. -/

/-- The opening curly brace character (written via its code point). -/
def braceL : Char := Char.ofNat 123

/-- The closing curly brace character (written via its code point). -/
def braceR : Char := Char.ofNat 125

inductive JVal where
  | null
  | bool (b : Bool)
  | num (mant : Int) (exp10 : Int)
  | str (s : String)
  | arr (items : List JVal)
  | obj (fields : List (String × JVal))
deriving Repr

/-- JSON insignificant whitespace (space, tab, newline, carriage return). -/
def jsonWs (c : Char) : Bool :=
  c == '\x0d' || c == '\n' || c == '\t' || c == ' '

def dropWs : List Char → List Char
  | [] => []
  | c :: cs => if jsonWs c then dropWs cs else c :: cs

def isDig (c : Char) : Bool := c ≤ '9' && '0' ≤ c

/-- Split a leading run of decimal digits from the input. -/
def grabDigits : List Char → List Char × List Char
  | [] => ([], [])
  | c :: cs =>
    if isDig c then
      let p := grabDigits cs
      (c :: p.1, p.2)
    else ([], c :: cs)

def digitsNat (ds : List Char) : Nat :=
  ds.foldl (fun a c => a * 10 + (c.toNat - 48)) 0

def hexDig (c : Char) : Option Nat :=
  if c ≤ '9' && '0' ≤ c then some (c.toNat - 48)
  else if c ≤ 'f' && 'a' ≤ c then some (c.toNat - 87)
  else if c ≤ 'F' && 'A' ≤ c then some (c.toNat - 55)
  else none

/-- The single-character JSON escapes, keyed by the code point of the escape
letter (quote, backslash and slash map to themselves). -/
def escMap (c : Char) : Option Char :=
  match c.toNat with
  | 34 => some c
  | 92 => some c
  | 47 => some c
  | 98 => some (Char.ofNat 8)
  | 102 => some (Char.ofNat 12)
  | 110 => some (Char.ofNat 10)
  | 114 => some (Char.ofNat 13)
  | 116 => some (Char.ofNat 9)
  | _ => none

/-- Read the body of a JSON string after the opening quote: returns the decoded
characters and the input remaining after the closing quote.  Raw control
characters below 0x20 are rejected, as JSON.parse rejects them. -/
def readStrBody : List Char → Option (List Char × List Char)
  | [] => none
  | c :: cs =>
    if c == '"' then some ([], cs)
    else if c == '\\' then
      match cs with
      | 'u' :: h1 :: h2 :: h3 :: h4 :: cs2 =>
        match hexDig h1, hexDig h2, hexDig h3, hexDig h4 with
        | some a, some b, some d, some e =>
          (readStrBody cs2).map
            (fun p => (Char.ofNat (((a * 16 + b) * 16 + d) * 16 + e) :: p.1, p.2))
        | _, _, _, _ => none
      | e :: cs2 =>
        match escMap e with
        | some ch => (readStrBody cs2).map (fun p => (ch :: p.1, p.2))
        | none => none
      | [] => none
    else if c.toNat < 32 then none
    else (readStrBody cs).map (fun p => (c :: p.1, p.2))

/-- Read a JSON number (sign, integer part without leading zeros, optional
fraction, optional exponent), producing the exact value as mantissa and
power of ten. -/
def readNum (cs : List Char) : Option (JVal × List Char) :=
  let sgn : Bool × List Char :=
    match cs with
    | c :: r => if c == '-' then (true, r) else (false, cs)
    | [] => (false, [])
  let ip := grabDigits sgn.2
  if ip.1.isEmpty then none
  else if 1 < ip.1.length && ip.1.headI == '0' then none
  else
    let fr : Option (List Char × List Char) :=
      match ip.2 with
      | c :: r =>
        if c == '.' then
          let p := grabDigits r
          if p.1.isEmpty then none else some p
        else some ([], ip.2)
      | [] => some ([], ip.2)
    match fr with
    | none => none
    | some (fds, r2) =>
      let ex : Option (Int × List Char) :=
        match r2 with
        | c :: r =>
          if c == 'e' || c == 'E' then
            let sp : Bool × List Char :=
              match r with
              | d :: rr =>
                if d == '+' then (false, rr)
                else if d == '-' then (true, rr)
                else (false, r)
              | [] => (false, [])
            let q := grabDigits sp.2
            if q.1.isEmpty then none
            else some ((if sp.1 then -(digitsNat q.1 : Int) else (digitsNat q.1 : Int)), q.2)
          else some (0, r2)
        | [] => some (0, r2)
      match ex with
      | none => none
      | some (e, r3) =>
        let mag : Nat := digitsNat (ip.1 ++ fds)
        let m : Int := if sgn.1 then -(mag : Int) else (mag : Int)
        some (.num m (e - (fds.length : Int)), r3)

mutual

/-- Parse one JSON value; fuel bounds the recursion depth and is always
sufficient for the fuel chosen by jsonParse below. -/
def pVal : Nat → List Char → Option (JVal × List Char)
  | 0, _ => none
  | fuel + 1, cs =>
    match dropWs cs with
    | [] => none
    | c :: r =>
      if c == '"' then (readStrBody r).map (fun p => (JVal.str (String.mk p.1), p.2))
      else if c == braceL then
        match dropWs r with
        | [] => none
        | d :: r2 =>
          if d == braceR then some (.obj [], r2)
          else (pFields fuel (d :: r2)).map (fun p => (JVal.obj p.1, p.2))
      else if c == '[' then
        match dropWs r with
        | [] => none
        | d :: r2 =>
          if d == ']' then some (.arr [], r2)
          else (pItems fuel (d :: r2)).map (fun p => (JVal.arr p.1, p.2))
      else if c == 't' then
        match r with
        | 'r' :: 'u' :: 'e' :: r2 => some (.bool true, r2)
        | _ => none
      else if c == 'f' then
        match r with
        | 'a' :: 'l' :: 's' :: 'e' :: r2 => some (.bool false, r2)
        | _ => none
      else if c == 'n' then
        match r with
        | 'u' :: 'l' :: 'l' :: r2 => some (.null, r2)
        | _ => none
      else if c == '-' || isDig c then readNum (c :: r)
      else none

/-- Parse the nonempty comma-separated item list of an array, up to and
including the closing bracket. -/
def pItems : Nat → List Char → Option (List JVal × List Char)
  | 0, _ => none
  | fuel + 1, cs =>
    match pVal fuel cs with
    | none => none
    | some (v, r) =>
      match dropWs r with
      | [] => none
      | d :: r2 =>
        if d == ',' then
          match pItems fuel r2 with
          | none => none
          | some (vs, r3) => some (v :: vs, r3)
        else if d == ']' then some ([v], r2)
        else none

/-- Parse the nonempty comma-separated member list of an object, up to and
including the closing brace. -/
def pFields : Nat → List Char → Option (List (String × JVal) × List Char)
  | 0, _ => none
  | fuel + 1, cs =>
    match dropWs cs with
    | [] => none
    | q :: r =>
      if q == '"' then
        match readStrBody r with
        | none => none
        | some (k, r1) =>
          match dropWs r1 with
          | [] => none
          | col :: r2 =>
            if col == ':' then
              match pVal fuel r2 with
              | none => none
              | some (v, r3) =>
                match dropWs r3 with
                | [] => none
                | d :: r4 =>
                  if d == ',' then
                    match pFields fuel r4 with
                    | none => none
                    | some (fs, r5) => some ((String.mk k, v) :: fs, r5)
                  else if d == braceR then some ([(String.mk k, v)], r4)
                  else none
            else none
      else none

end

/-- The embedding of JSON.parse: parse a complete document, requiring only
whitespace to remain.  The fuel is generous enough for any parseable input
(every two fuel steps consume at least one character). -/
def jsonParse (cs : List Char) : Option JVal :=
  match pVal (2 * cs.length + 2) cs with
  | none => none
  | some (v, r) => if (dropWs r).isEmpty then some v else none

/-! ## The delta extraction

The REST adapter evaluates, for the parsed data of each line,

  data.choices[0]?.delta?.content || ''

inside the same try block that holds JSON.parse, and appends/forwards the
result only when it is truthy.  A TypeError thrown by the navigation (property
access on null, indexing undefined) is caught by that try and the line is
skipped, exactly as when the result is falsy; extractContent therefore returns
none in every case in which the line contributes nothing, and some s with the
appended text otherwise. -/

/-- JavaScript property lookup on a parsed JSON object: the last member with
the given key wins (JSON.parse keeps the last duplicate). -/
def objGet (fs : List (String × JVal)) (k : String) : Option JVal :=
  (fs.reverse.find? (fun p => p.1 == k)).map (fun p => p.2)

/-- JavaScript truthiness of a parsed JSON value. -/
def jTruthy : JVal → Bool
  | .null => false
  | .bool b => b
  | .num m _ => m != 0
  | .str s => s != ""
  | .arr _ => true
  | .obj _ => true

/-- Decimal rendering of the exact number mant * 10 ^ exp10, for the string
coercion below (plain decimal; the exponent notation JavaScript would use for
extreme magnitudes is not reproduced, and is unreachable in the claims). -/
def numText (m : Int) (e : Int) : String :=
  if 0 ≤ e then toString (m * 10 ^ e.toNat)
  else
    let s := e.natAbs
    let q := m.natAbs
    let ip := q / 10 ^ s
    let fp := q % 10 ^ s
    let fstr := String.mk (List.replicate (s - (toString fp).length) '0') ++ toString fp
    let ftrim := String.mk (fstr.data.reverse.dropWhile (fun c => c == '0')).reverse
    (if m < 0 then "-" else "") ++ toString ip ++
      (if ftrim == "" then "" else "." ++ ftrim)

mutual

/-- JavaScript string coercion of a parsed JSON value (what the += and onChunk
would receive for a truthy non-string delta). -/
def jText : JVal → String
  | .null => "null"
  | .bool b => if b then "true" else "false"
  | .num m e => numText m e
  | .str s => s
  | .arr items => jTextList items
  | .obj _ => "[object Object]"

/-- Array toString: elements joined by commas, null elements rendered empty. -/
def jTextList : List JVal → String
  | [] => ""
  | v :: vs =>
    let s :=
      match v with
      | .null => ""
      | w => jText w
    match vs with
    | [] => s
    | _ => s ++ "," ++ jTextList vs

end

/-- Indexing the value of data.choices with [0] (not optional-chained in the
source, so indexing undefined or null throws — modelled as none). -/
def jIndex0 : JVal → Option (Option JVal)
  | .null => none
  | .arr items => some items.head?
  | .obj fs => some (objGet fs "0")
  | .str s =>
    match s.data with
    | [] => some none
    | c :: _ => some (some (.str (String.mk [c])))
  | .bool _ => some none
  | .num _ _ => some none

/-- An optional-chained property access v?.k: undefined and null propagate as
undefined, primitives have no such property. -/
def jChainGet (v : Option JVal) (k : String) : Option JVal :=
  match v with
  | none => none
  | some .null => none
  | some (.obj fs) => objGet fs k
  | some _ => none

/-- The text a parsed data line contributes: some s exactly when
data.choices[0]?.delta?.content is truthy, with s its string coercion. -/
def extractContent (data : JVal) : Option String :=
  match data with
  | .obj fs =>
    match objGet fs "choices" with
    | none => none
    | some ch =>
      match jIndex0 ch with
      | none => none
      | some el =>
        match jChainGet (jChainGet el "delta") "content" with
        | none => none
        | some v => if jTruthy v then some (jText v) else none
  | _ => none

/-! ## The SSE line protocol of the REST adapter (streamStandardOpenAI)

The read loop decodes each reader.read() result, splits it on newlines,
filters out whitespace-only lines, and for each line: a line containing the
[DONE] marker returns onComplete(fullText) immediately; a line starting with
the data marker is JSON-parsed inside a try that skips the line on any
failure; all other lines are ignored.  No state is carried across read
boundaries other than the accumulated full text. -/

def doneMark : List Char := "[DONE]".data

def dataMark : List Char := "data: ".data

/-- The substring test of String.includes. -/
def hasSub (needle : List Char) : List Char → Bool
  | [] => needle.isEmpty
  | c :: rest => needle.isPrefixOf (c :: rest) || hasSub needle rest

/-- Whitespace for the trim() of the line filter. -/
def jsTrimWs (c : Char) : Bool :=
  c == '\x0d' || c.toNat == 12 || c.toNat == 11 || c == '\n' || c == '\t' ||
    c == ' ' || c.toNat == 160 || c.toNat == 65279

def trimBoth (l : List Char) : List Char :=
  ((l.dropWhile jsTrimWs).reverse.dropWhile jsTrimWs).reverse

/-- String.split on the newline character: n separators yield n+1 pieces
(including empty ones, and a final piece after a trailing newline). -/
def splitNl : List Char → List (List Char)
  | [] => [[]]
  | c :: rest =>
    if c == '\n' then [] :: splitNl rest
    else
      match splitNl rest with
      | [] => [[c]]
      | h :: t => (c :: h) :: t

/-- chunk.split newline, then filter of the whitespace-only lines. -/
def lineSplit (r : List Char) : List (List Char) :=
  (splitNl r).filter (fun l => !(trimBoth l).isEmpty)

/-- What one line of the stream does. -/
inductive LineStep where
  | finish
  | piece (s : String)
  | skip
deriving DecidableEq, Repr

/-- Process one line: the includes test for the [DONE] marker comes first and
returns completion; then only lines with the data marker are parsed, a parse
or navigation failure skipping the line; a truthy delta is forwarded. -/
def processLine (line : List Char) : LineStep :=
  if hasSub doneMark line then .finish
  else if dataMark.isPrefixOf line then
    match jsonParse (line.drop 6) with
    | some v =>
      match extractContent v with
      | some s => .piece s
      | none => .skip
    | none => .skip
  else .skip

/-- The callback/network trace of one streamResponse call. -/
inductive Ev where
  | fetch
  | chunk (s : String)
  | complete (full : String)
  | error (msg : String)
deriving DecidableEq, Repr

/-- Run the lines of one read: returns the emitted events, the accumulated
full text, and whether the [DONE] return fired. -/
def runLines : List (List Char) → String → List Ev × String × Bool
  | [], acc => ([], acc, false)
  | l :: ls, acc =>
    match processLine l with
    | .finish => ([Ev.complete acc], acc, true)
    | .piece s =>
      let rest := runLines ls (acc ++ s)
      (Ev.chunk s :: rest.1, rest.2)
    | .skip => runLines ls acc

/-- The while loop over reader.read() results: each read is split and run;
an early [DONE] return stops the loop. -/
def runReads : List (List Char) → String → List Ev × String × Bool
  | [], acc => ([], acc, false)
  | r :: rs, acc =>
    let step := runLines (lineSplit r) acc
    if step.2.2 then step
    else
      let rest := runReads rs step.2.1
      (step.1 ++ rest.1, rest.2)

/-- The environment of one REST adapter call: how fetch and the body reads
turn out.  readFail, when present, is a rejection of a read() after the
listed reads were delivered. -/
inductive RestEnv where
  | fetchFail (msg : String)
  | httpError (status : Nat) (body : String)
  | noBody
  | stream (reads : List (List Char)) (readFail : Option String)

/-- The REST adapter streamStandardOpenAI: emits its event trace and,
separately, the message of an exception escaping it (to be caught by
streamResponse).  A non-ok response throws with the status and body text; a
missing body throws; otherwise the read loop runs and completion fires either
at a [DONE] line or at the end of the stream. -/
def streamStandardOpenAI (env : RestEnv) : List Ev × Option String :=
  match env with
  | .fetchFail m => ([Ev.fetch], some m)
  | .httpError status body =>
    ([Ev.fetch], some ("API Error " ++ toString status ++ ": " ++ body))
  | .noBody => ([Ev.fetch], some "No response body")
  | .stream reads readFail =>
    let run := runReads reads ""
    if run.2.2 then (Ev.fetch :: run.1, none)
    else
      match readFail with
      | some m => (Ev.fetch :: run.1, some m)
      | none => (Ev.fetch :: run.1 ++ [Ev.complete run.2.1], none)

/-- The environment of one SDK adapter call: either the chat creation or send
throws, or a list of streamed fragments (chunk.text may be undefined) is
delivered, optionally followed by an iteration failure. -/
inductive GeminiEnv where
  | sdkFail (msg : String)
  | stream (texts : List (Option String)) (iterFail : Option String)

/-- The fragment loop of streamGemini: fragments with falsy text are skipped,
the rest are forwarded and accumulated. -/
def gemRun : List (Option String) → String → List Ev × String
  | [], acc => ([], acc)
  | t :: ts, acc =>
    match t with
    | some s =>
      if s == "" then gemRun ts acc
      else
        let rest := gemRun ts (acc ++ s)
        (Ev.chunk s :: rest.1, rest.2)
    | none => gemRun ts acc

/-- The SDK adapter streamGemini: its trace and escaping exception. -/
def streamGemini (env : GeminiEnv) : List Ev × Option String :=
  match env with
  | .sdkFail m => ([], some m)
  | .stream texts iterFail =>
    let run := gemRun texts ""
    match iterFail with
    | some m => (run.1, some m)
    | none => (run.1 ++ [Ev.complete run.2], none)

def providerName : ModelProvider → String
  | .Gemini => "Gemini"
  | .OpenAI => "OpenAI"
  | .DeepSeek => "DeepSeek"

/-- JavaScript falsiness of an optional string (undefined/null or empty):
used for the looked-up API key and for the attached image. -/
def keyMissing (k : Option String) : Bool :=
  match k with
  | none => true
  | some s => s == ""

/-- The stream normalizer streamResponse: selects the adapter by the active
provider; for the REST providers a falsy key raises onError synchronously
and returns; any exception escaping the adapter is caught and converted to
onError.  The result is the full callback/network trace; totality of this
definition is the no-escaping-exception guarantee. -/
def streamResponse (settings : AppSettings) (genv : GeminiEnv) (renv : RestEnv) : List Ev :=
  let run : List Ev × Option String :=
    match settings.activeModel with
    | .Gemini => streamGemini genv
    | p =>
      if keyMissing (settings.apiKeys p) then
        ([Ev.error ("Please provide an API key for " ++ providerName p ++ " in Settings.")], none)
      else streamStandardOpenAI renv
  match run.2 with
  | none => run.1
  | some m => run.1 ++ [Ev.error m]

/-! ## The REST request payload (for the multimodal serialization) -/

inductive PayloadContent where
  | text (s : String)
  | parts (text : String) (imageUrl : String)
deriving DecidableEq, Repr

structure PayloadMsg where
  role : String
  content : PayloadContent
deriving DecidableEq, Repr

def roleName : Role → String
  | .user => "user"
  | .model => "model"

/-- How one conversation message is serialized into the REST request body:
the vision parts form is used only when the message carries a truthy image
and the provider is OpenAI. -/
def payloadOf (provider : ModelProvider) (m : Message) : PayloadMsg :=
  match m.image with
  | some img =>
    if img != "" && provider == ModelProvider.OpenAI then
      { role := roleName m.role, content := .parts m.content img }
    else { role := roleName m.role, content := .text m.content }
  | none => { role := roleName m.role, content := .text m.content }

/-- The messages array of the REST request body: the system message first,
then every conversation message serialized by payloadOf. -/
def buildPayloadMessages (provider : ModelProvider) (systemInstruction : String)
    (messages : List Message) : List PayloadMsg :=
  { role := "system", content := .text systemInstruction } ::
    messages.map (payloadOf provider)

/-- Endpoint base URL and default model name per REST provider. -/
def restBase (p : ModelProvider) : String × String :=
  if p == ModelProvider.DeepSeek then ("https://api.deepseek.com", "deepseek-chat")
  else ("https://api.openai.com/v1", "gpt-4o-mini")

/-- The title generator.  For the SDK provider the resolved response text is
external input (none = the call threw; some none = response.text undefined);
for the other providers the heuristic of the first four whitespace-separated
tokens is used with no network. -/
def generateTitle (model : ModelProvider) (geminiText : Option (Option String))
    (firstMessage : String) : String :=
  match model with
  | .Gemini =>
    match geminiText with
    | some (some t) => if t.trim == "" then "New Chat" else t.trim
    | some none => "New Chat"
    | none => "New Chat"
  | _ => String.intercalate " " ((firstMessage.splitOn " ").take 4) ++ "..."

/-! ## The conversation orchestrator (App.tsx)

The send handler captures the current session id and the generated
placeholder id in its closure; every callback resolves the target session by
that captured id (mapping the session list) and the placeholder by its stored
id (patching the first message the find locates).  A callback whose session
or placeholder no longer exists leaves the list unchanged. -/

/-- The in-place append of a chunk to the found placeholder. -/
def contentAppend (c : String) (m : Message) : Message :=
  { m with content := m.content ++ c }

/-- The error overwrite of the found placeholder. -/
def errorPatch (emsg : String) (m : Message) : Message :=
  { m with content := "Error: " ++ emsg, isError := true }

/-- Patch the first message carrying the given id (the find of the source),
leaving every other message untouched. -/
def patchFirstMsg (mid : String) (f : Message → Message) : List Message → List Message
  | [] => []
  | m :: rest => if m.id == mid then f m :: rest else m :: patchFirstMsg mid f rest

def sessionChunkPatch (cid mid c : String) (s : ChatSession) : ChatSession :=
  if s.id == cid then { s with messages := patchFirstMsg mid (contentAppend c) s.messages }
  else s

/-- The setSessions update of the onChunk callback. -/
def onChunkUpdate (cid mid c : String) (sessions : List ChatSession) : List ChatSession :=
  sessions.map (sessionChunkPatch cid mid c)

def sessionErrorPatch (cid mid emsg : String) (s : ChatSession) : ChatSession :=
  if s.id == cid then { s with messages := patchFirstMsg mid (errorPatch emsg) s.messages }
  else s

/-- The setSessions update of the onError callback. -/
def onErrorUpdate (cid mid emsg : String) (sessions : List ChatSession) : List ChatSession :=
  sessions.map (sessionErrorPatch cid mid emsg)

def sessionTitlePatch (cid title : String) (s : ChatSession) : ChatSession :=
  if s.id == cid then { s with title := title } else s

/-- The setSessions update after the title generator resolves. -/
def setTitleUpdate (cid title : String) (sessions : List ChatSession) : List ChatSession :=
  sessions.map (sessionTitlePatch cid title)

/-- The orchestrator state: the session list, the selected session id, and the
awaiting-response indicator. -/
structure AppState where
  sessions : List ChatSession
  currentSessionId : Option String
  isLoading : Bool
deriving DecidableEq, Repr

/-- The session-list part of deleteChat: every session with the id is
filtered out. -/
def deleteChat (id : String) (sessions : List ChatSession) : List ChatSession :=
  sessions.filter (fun s => !(s.id == id))

/-- The onChunk callback on the whole state (cid and mid are the captured
ids, not the selection at callback time). -/
def appOnChunk (cid mid c : String) (st : AppState) : AppState :=
  { st with sessions := onChunkUpdate cid mid c st.sessions }

/-- The onError callback on the whole state: clears the indicator and patches
the placeholder. -/
def appOnError (cid mid emsg : String) (st : AppState) : AppState :=
  { st with isLoading := false, sessions := onErrorUpdate cid mid emsg st.sessions }

/-- The onComplete callback on the whole state: clears the indicator and,
when the turn context held at most one message, invokes the title generator
(the second component counts its invocations; title is the resolved result)
and commits the title to the session if it still exists. -/
def appOnComplete (cid : String) (ctxLen : Nat) (title : String) (st : AppState) :
    AppState × Nat :=
  if ctxLen ≤ 1 then
    ({ st with isLoading := false, sessions := setTitleUpdate cid title st.sessions }, 1)
  else ({ st with isLoading := false }, 0)

/-- Apply a callback trace to the state, counting title generator
invocations. -/
def applyEvents (cid mid : String) (ctxLen : Nat) (title : String) :
    List Ev → AppState → AppState × Nat
  | [], st => (st, 0)
  | e :: rest, st =>
    match e with
    | .fetch => applyEvents cid mid ctxLen title rest st
    | .chunk c => applyEvents cid mid ctxLen title rest (appOnChunk cid mid c st)
    | .complete _ =>
      let step := appOnComplete cid ctxLen title st
      let rest2 := applyEvents cid mid ctxLen title rest step.1
      (rest2.1, step.2 + rest2.2)
    | .error m => applyEvents cid mid ctxLen title rest (appOnError cid mid m st)

/-- Append a message to the session with the given id, optionally touching
its updatedAt timestamp (the user append touches it, the placeholder append
does not). -/
def appendSessionMsg (cid : String) (msg : Message) (touch : Option Nat)
    (sessions : List ChatSession) : List ChatSession :=
  sessions.map (fun s =>
    if s.id == cid then
      match touch with
      | some t => { s with messages := s.messages ++ [msg], updatedAt := t }
      | none => { s with messages := s.messages ++ [msg] }
    else s)

/-- The send handler handleSendMessage up to the stream invocation: rejects
when no session is selected; otherwise appends the user message (touching the
timestamp), sets the indicator, appends the empty placeholder, and builds the
network context from the pre-send snapshot of the session messages plus the
new user message.  Returns the updated state, the placeholder id, and the
context; none means the send was rejected with no state change and no
stream. -/
def handleSendMessage (st : AppState) (text : String) (image : Option String) (now : Nat) :
    Option (AppState × String × List Message) :=
  match st.currentSessionId with
  | none => none
  | some cid =>
    let userMsg : Message :=
      { id := toString now, role := .user, content := text, timestamp := now,
        image := image, isError := false }
    let s1 := appendSessionMsg cid userMsg (some now) st.sessions
    let aiMsgId := toString (now + 1)
    let placeholder : Message :=
      { id := aiMsgId, role := .model, content := "", timestamp := now,
        image := none, isError := false }
    let s2 := appendSessionMsg cid placeholder none s1
    let sessionMessages := ((st.sessions.find? (fun s => s.id == cid)).map
      ChatSession.messages).getD []
    let ctx := sessionMessages ++ [userMsg]
    some ({ st with sessions := s2, isLoading := true }, aiMsgId, ctx)

/-- JavaScript image || undefined: a falsy image (null or empty) becomes
undefined. -/
def orUndef (v : Option String) : Option String :=
  match v with
  | some s => if s == "" then none else some s
  | none => none

/-- The guard of ChatInput.handleSend: a whitespace-only text (its trim is
empty) with a falsy image, or a send while loading, never calls onSend;
otherwise onSend receives the text and the image-or-undefined. -/
def chatInputHandleSend (text : String) (image : Option String) (isLoading : Bool) :
    Option (String × Option String) :=
  if ((trimBoth text.data).isEmpty && keyMissing image) || isLoading then none
  else some (text, orUndef image)

/-- The composed send path: the input guard, then the send handler. -/
def sendPipeline (st : AppState) (text : String) (image : Option String)
    (isLoading : Bool) (now : Nat) : Option (AppState × String × List Message) :=
  match chatInputHandleSend text image isLoading with
  | none => none
  | some ti => handleSendMessage st ti.1 ti.2 now

/-- The content of the placeholder as the callbacks would locate it: the first
session with the captured session id, then its first message with the
placeholder id. -/
def placeholderContent (cid mid : String) (sessions : List ChatSession) : Option String :=
  match sessions.find? (fun s => s.id == cid) with
  | none => none
  | some s =>
    match s.messages.find? (fun m => m.id == mid) with
    | none => none
    | some m => some m.content

/-! ## Derived notions used by the statements -/

/-- The tail of the canonical frame after the closing quote of the delta text
(close delta object, close choice object, close array, close top object). -/
def jskelTail : List Char := "\x7d\x7d]\x7d".data

/-- A delta character that needs no JSON escaping and cannot interact with the
line discipline: printable (no raw control characters, hence no newline), not
a quote, not a backslash, and not an opening bracket (so the [DONE] test of
the source cannot fire inside the text). -/
def SafeChar (c : Char) : Prop := 32 ≤ c.toNat ∧ c ≠ '"' ∧ c ≠ '\\' ∧ c ≠ '['

/-- A delta that is forwarded verbatim: nonempty (the source drops falsy
deltas) and made of safe characters. -/
def SafeDelta (d : String) : Prop := d ≠ "" ∧ ∀ c ∈ d.data, SafeChar c

instance (c : Char) : Decidable (SafeChar c) := by
  unfold SafeChar
  infer_instance

instance (d : String) : Decidable (SafeDelta d) := by
  unfold SafeDelta
  infer_instance

/-- The JSON text of the canonical delta frame for text d. -/
def jsonOf (d : String) : List Char :=
  "\x7b\"choices\":[\x7b\"delta\":\x7b\"content\":\"".data ++ (d.data ++ ('"' :: jskelTail))

/-- One canonical SSE frame line carrying the delta text d. -/
def sseFrame (d : String) : List Char := "data: ".data ++ jsonOf d

/-- The parsed value of the canonical frame. -/
def deltaJson (d : String) : JVal :=
  .obj [("choices", .arr [.obj [("delta", .obj [("content", .str d)])]])]

/-- Assemble one read of the response stream from whole lines (each line is
followed by its newline). -/
def mkRead (lines : List (List Char)) : List Char :=
  (lines.map (fun l => l ++ ['\n'])).flatten

/-- A read consisting of the frames of the given delta texts. -/
def framesRead (g : List String) : List Char := mkRead (g.map sseFrame)

/-- The terminating read of the stream. -/
def doneRead : List Char := "data: [DONE]\n".data

/-- Concatenation c1 ++ .. ++ cn of a list of strings. -/
def strConcat : List String → String
  | [] => ""
  | s :: rest => s ++ strConcat rest

/-- The texts of the chunk events of a trace, in order. -/
def chunkTexts : List Ev → List String
  | [] => []
  | Ev.chunk s :: rest => s :: chunkTexts rest
  | _ :: rest => chunkTexts rest

/-- A trace without error events. -/
def errorFree : List Ev → Bool
  | [] => true
  | Ev.error _ :: _ => false
  | _ :: rest => errorFree rest

/-- A terminal event of the callback contract. -/
def isTerminal : Ev → Bool
  | Ev.complete _ => true
  | Ev.error _ => true
  | _ => false

def isChunkEv : Ev → Bool
  | Ev.chunk _ => true
  | _ => false

def isCompleteEv : Ev → Bool
  | Ev.complete _ => true
  | _ => false

def isFetchEv : Ev → Bool
  | Ev.fetch => true
  | _ => false

/-- Settings with the given active provider and one key for every provider,
for the concrete runs below. -/
def demoSettings (p : ModelProvider) (k : Option String) : AppSettings :=
  { apiKeys := fun _ => k, systemInstruction := "sys", activeModel := p,
    profile := { name := "User", avatarUrl := none }, darkMode := true,
    enterToSend := true }

/-- The empty streaming placeholder message of the concrete runs below. -/
def demoMsg : Message :=
  { id := "m", role := .model, content := "", timestamp := 0,
    image := none, isError := false }

/-- A session holding exactly the placeholder. -/
def demoSession : ChatSession :=
  { id := "s", title := "New Chat", messages := [demoMsg],
    createdAt := 0, updatedAt := 0, model := .OpenAI }

/-- The state of a turn streaming into the placeholder. -/
def demoState : AppState :=
  { sessions := [demoSession], currentSessionId := some "s", isLoading := true }

/-- The canonical single frame for the text Hi, split mid-frame across a read
boundary: the first read ends inside the JSON text. -/
def splitReadA : List Char := "data: \x7b\"choices\":[\x7b\"delta\":\x7b\"content\":\"H".data

/-- The rest of the split frame, followed by the terminating frame. -/
def splitReadB : List Char := "i\"\x7d\x7d]\x7d\ndata: [DONE]\n".data

/-- The same bytes delivered in one read (the frame not split). -/
def wholeRead : List Char :=
  "data: \x7b\"choices\":[\x7b\"delta\":\x7b\"content\":\"Hi\"\x7d\x7d]\x7d\ndata: [DONE]\n".data

/-! ## Helper lemmas: strings -/

theorem strMk_data (s : String) : String.mk s.data = s := by
  cases s
  rfl

theorem strAppend_assoc (a b c : String) : a ++ b ++ c = a ++ (b ++ c) := by
  apply String.ext
  simp [String.data_append, List.append_assoc]

theorem strAppend_empty (a : String) : a ++ "" = a := by
  apply String.ext
  simp [String.data_append]

theorem strEmpty_append (a : String) : "" ++ a = a := by
  apply String.ext
  simp [String.data_append]

theorem strConcat_cons_left (t c : String) (ds : List String) :
    t ++ strConcat (c :: ds) = (t ++ c) ++ strConcat ds := by
  simp [strConcat, strAppend_assoc]

theorem strConcat_append (a b : List String) :
    strConcat (a ++ b) = strConcat a ++ strConcat b := by
  induction a with
  | nil => simp [strConcat, strEmpty_append]
  | cons s t ih => simp [strConcat, ih, strAppend_assoc]

/-! ## Helper lemmas: parsing the canonical frame -/

theorem readStrBody_safe (rest : List Char) :
    ∀ l : List Char, (∀ c ∈ l, SafeChar c) →
      readStrBody (l ++ '"' :: rest) = some (l, rest)
  | [], _ => by
    rw [readStrBody.eq_def]
    simp
  | c :: l, h => by
    obtain ⟨h32, hq, hb, _⟩ := h c (by simp)
    have ih := readStrBody_safe rest l (fun x hx => h x (by simp [hx]))
    have h32x : ¬ c.toNat < 32 := by omega
    rw [List.cons_append, readStrBody.eq_def]
    simp [hq, hb, h32x, ih]

theorem scanChoices (rest : List Char) :
    readStrBody ('c' :: 'h' :: 'o' :: 'i' :: 'c' :: 'e' :: 's' :: '"' :: rest) =
      some (['c', 'h', 'o', 'i', 'c', 'e', 's'], rest) := by
  simpa using readStrBody_safe rest ['c', 'h', 'o', 'i', 'c', 'e', 's'] (by decide)

theorem scanDelta (rest : List Char) :
    readStrBody ('d' :: 'e' :: 'l' :: 't' :: 'a' :: '"' :: rest) =
      some (['d', 'e', 'l', 't', 'a'], rest) := by
  simpa using readStrBody_safe rest ['d', 'e', 'l', 't', 'a'] (by decide)

theorem scanContent (rest : List Char) :
    readStrBody ('c' :: 'o' :: 'n' :: 't' :: 'e' :: 'n' :: 't' :: '"' :: rest) =
      some (['c', 'o', 'n', 't', 'e', 'n', 't'], rest) := by
  simpa using readStrBody_safe rest ['c', 'o', 'n', 't', 'e', 'n', 't'] (by decide)

theorem pVal_frame (d : String) (h : ∀ c ∈ d.data, SafeChar c) (g : Nat) :
    pVal (g + 12) (jsonOf d) = some (deltaJson d, []) := by
  have hs := readStrBody_safe (braceR :: braceR :: ']' :: braceR :: []) d.data h
  simp [braceR] at hs
  simp [jsonOf, deltaJson, pVal, pFields, pItems, hs, scanChoices, scanDelta, scanContent,
    jskelTail, dropWs, jsonWs, braceL, braceR, strMk_data, isDig]

theorem jsonParse_frame (d : String) (h : ∀ c ∈ d.data, SafeChar c) :
    jsonParse (jsonOf d) = some (deltaJson d) := by
  have hlen : 2 * (jsonOf d).length + 2 = (2 * d.data.length + 66) + 12 := by
    simp [jsonOf, jskelTail, List.length_append]
    omega
  rw [jsonParse, hlen, pVal_frame d h]
  simp [dropWs]

theorem extractContent_deltaJson (d : String) (hne : d ≠ "") :
    extractContent (deltaJson d) = some d := by
  simp [extractContent, deltaJson, objGet, jIndex0, jChainGet, jTruthy, jText, hne]

/-! ## Helper lemmas: the line discipline on canonical frames -/

theorem hasSub_append_skip (rest : List Char) :
    ∀ l : List Char, (∀ c ∈ l, c ≠ '[') →
      hasSub doneMark (l ++ rest) = hasSub doneMark rest
  | [], _ => by simp
  | c :: l, h => by
    have hc : c ≠ '[' := h c (by simp)
    have ih := hasSub_append_skip rest l (fun x hx => h x (by simp [hx]))
    have hc2 : ('[' == c) = false := by
      simp [Ne.symm hc]
    simp only [doneMark] at ih ⊢
    simp [hasSub, List.isPrefixOf, hc2, ih]

theorem hasSub_frame (d : String) (h : ∀ c ∈ d.data, SafeChar c) :
    hasSub doneMark (sseFrame d) = false := by
  have hskip := hasSub_append_skip ('"' :: jskelTail) d.data
    (fun c hc => ((h c hc).2.2.2))
  simp [jskelTail, braceR, doneMark] at hskip
  simp [sseFrame, jsonOf, jskelTail, hasSub, doneMark, List.isPrefixOf, braceL, braceR, hskip]

theorem processLine_frame (d : String) (h : SafeDelta d) :
    processLine (sseFrame d) = .piece d := by
  obtain ⟨hne, hsafe⟩ := h
  have hdrop : (sseFrame d).drop 6 = jsonOf d := by
    simp [sseFrame]
  have hmark : dataMark.isPrefixOf (sseFrame d) = true := by
    simp [sseFrame, dataMark, List.isPrefixOf]
  simp [processLine, hasSub_frame d hsafe, hmark, hdrop, jsonParse_frame d hsafe,
    extractContent_deltaJson d hne]

theorem trimBoth_keep (c : Char) (l : List Char) (hc : jsTrimWs c = false) :
    (trimBoth (c :: l)).isEmpty = false := by
  have hmem : c ∈ (c :: l).reverse := by simp
  have : (c :: l).reverse.dropWhile jsTrimWs ≠ [] := by
    rw [ne_eq, List.dropWhile_eq_nil_iff]
    intro hall
    exact absurd (hall c hmem) (by simp [hc])
  simp [trimBoth, List.dropWhile_cons, hc, List.isEmpty_iff, this]
  exact ⟨c, Or.inr rfl, hc⟩

theorem splitNl_line (l : List Char) (hnl : '\n' ∉ l) (rest : List Char) :
    splitNl (l ++ '\n' :: rest) = l :: splitNl rest := by
  induction l with
  | nil => simp [splitNl]
  | cons c t ih =>
    have hc : c ≠ '\n' := by
      intro e
      exact hnl (by simp [e])
    have ht : '\n' ∉ t := fun hx => hnl (by simp [hx])
    rw [List.cons_append, splitNl]
    simp only [hc, if_neg, ih ht]
    simp [hc]

theorem newline_not_mem_frame (d : String) (h : ∀ c ∈ d.data, SafeChar c) :
    '\n' ∉ sseFrame d := by
  intro hmem
  rw [sseFrame, jsonOf] at hmem
  rcases List.mem_append.mp hmem with hA | hBCD
  · exact absurd hA (by decide)
  rcases List.mem_append.mp hBCD with hB | hCD
  · exact absurd hB (by decide)
  rcases List.mem_append.mp hCD with hC | hD
  · exact absurd (h _ hC).1 (by decide)
  · exact absurd hD (by decide)

theorem trimBoth_frame (d : String) : (trimBoth (sseFrame d)).isEmpty = false := by
  have : sseFrame d = 'd' :: ("ata: ".data ++ jsonOf d) := by
    simp [sseFrame]
  rw [this]
  exact trimBoth_keep 'd' _ (by decide)

theorem lineSplit_mkRead (lines : List (List Char)) (h1 : ∀ l ∈ lines, '\n' ∉ l)
    (h2 : ∀ l ∈ lines, (trimBoth l).isEmpty = false) :
    lineSplit (mkRead lines) = lines := by
  induction lines with
  | nil => simp [mkRead, lineSplit, splitNl, trimBoth]
  | cons l ls ih =>
    have hm : mkRead (l :: ls) = l ++ '\n' :: mkRead ls := by
      simp [mkRead]
    rw [hm]
    have hl := h1 l (by simp)
    have ihr := ih (fun x hx => h1 x (by simp [hx])) (fun x hx => h2 x (by simp [hx]))
    simp only [lineSplit, splitNl_line l hl, List.filter_cons]
    simp only [lineSplit] at ihr
    simp [h2 l (by simp), ihr]

theorem runLines_frames (acc : String) :
    ∀ g : List String, (∀ d ∈ g, SafeDelta d) →
      runLines (g.map sseFrame) acc = (g.map Ev.chunk, acc ++ strConcat g, false)
  | [], _ => by simp [runLines, strConcat, strAppend_empty]
  | d :: g, h => by
    have hd := h d (by simp)
    have ih := runLines_frames (acc ++ d) g (fun x hx => h x (by simp [hx]))
    simp [runLines, processLine_frame d hd, ih, strConcat_cons_left]

theorem lineSplit_doneRead :
    lineSplit doneRead = [['d', 'a', 't', 'a', ':', ' ', '[', 'D', 'O', 'N', 'E', ']']] := by
  decide

theorem processLine_doneLine :
    processLine ['d', 'a', 't', 'a', ':', ' ', '[', 'D', 'O', 'N', 'E', ']'] = .finish := by
  decide

theorem runReads_frames_done (groups : List (List String))
    (h : ∀ g ∈ groups, ∀ d ∈ g, SafeDelta d) (acc : String) :
    runReads ((groups.map framesRead) ++ [doneRead]) acc =
      ((groups.flatten).map Ev.chunk ++ [Ev.complete (acc ++ strConcat groups.flatten)],
        acc ++ strConcat groups.flatten, true) := by
  induction groups generalizing acc with
  | nil =>
    simp [runReads, lineSplit_doneRead, runLines, processLine_doneLine, strConcat,
      strAppend_empty]
  | cons g gs ih =>
    have hg := h g (by simp)
    have hlines : lineSplit (framesRead g) = g.map sseFrame := by
      apply lineSplit_mkRead
      · intro l hl
        simp only [List.mem_map] at hl
        obtain ⟨d, hd, rfl⟩ := hl
        exact newline_not_mem_frame d (hg d hd).2
      · intro l hl
        simp only [List.mem_map] at hl
        obtain ⟨d, hd, rfl⟩ := hl
        exact trimBoth_frame d
    have hrun := runLines_frames acc g hg
    have ihr := ih (fun x hx => h x (by simp [hx])) (acc ++ strConcat g)
    simp only [List.map_cons, List.cons_append, runReads, hlines, hrun]
    simp [ihr, List.map_append, strConcat_append, strAppend_assoc, List.append_assoc]

theorem restAdapter_frames (groups : List (List String))
    (h : ∀ g ∈ groups, ∀ d ∈ g, SafeDelta d) :
    streamStandardOpenAI (.stream ((groups.map framesRead) ++ [doneRead]) none) =
      (Ev.fetch :: (groups.flatten).map Ev.chunk ++
        [Ev.complete (strConcat groups.flatten)], none) := by
  have hrun := runReads_frames_done groups h ""
  simp [streamStandardOpenAI, hrun, strEmpty_append]

theorem chunkTexts_chunks (x : String) :
    ∀ ds : List String, chunkTexts (ds.map Ev.chunk ++ [Ev.complete x]) = ds
  | [] => by simp [chunkTexts]
  | d :: rest => by simp [chunkTexts, chunkTexts_chunks x rest]

theorem chunkTexts_canonical (ds : List String) (x : String) :
    chunkTexts (Ev.fetch :: ds.map Ev.chunk ++ [Ev.complete x]) = ds := by
  simpa [chunkTexts] using chunkTexts_chunks x ds

theorem errorFree_chunks (x : String) :
    ∀ ds : List String, errorFree (ds.map Ev.chunk ++ [Ev.complete x]) = true
  | [] => by simp [errorFree]
  | d :: rest => by simp [errorFree, errorFree_chunks x rest]

theorem errorFree_canonical (ds : List String) (x : String) :
    errorFree (Ev.fetch :: ds.map Ev.chunk ++ [Ev.complete x]) = true := by
  simpa [errorFree] using errorFree_chunks x ds

/-! ## Helper lemmas: the session/message mutation protocol -/

theorem patchFirstMsg_not_found (mid : String) (f : Message → Message) :
    ∀ msgs : List Message, mid ∉ msgs.map Message.id → patchFirstMsg mid f msgs = msgs
  | [], _ => rfl
  | m :: rest, h => by
    simp only [List.map_cons, List.mem_cons, not_or] at h
    have hm : (m.id == mid) = false := by
      have := Ne.symm h.1
      simp [this]
    simp [patchFirstMsg, hm, patchFirstMsg_not_found mid f rest h.2]

theorem patchFirstMsg_length (mid : String) (f : Message → Message) :
    ∀ msgs : List Message, (patchFirstMsg mid f msgs).length = msgs.length
  | [] => rfl
  | m :: rest => by
    by_cases hm : m.id == mid <;>
      simp [patchFirstMsg, hm, patchFirstMsg_length mid f rest]

theorem patchFirstMsg_split (mid : String) (f : Message → Message) (ph : Message)
    (hph : ph.id = mid) :
    ∀ (mp ms : List Message), mid ∉ mp.map Message.id →
      patchFirstMsg mid f (mp ++ ph :: ms) = mp ++ f ph :: ms
  | [], ms, _ => by simp [patchFirstMsg, hph]
  | m :: mp, ms, h => by
    simp only [List.map_cons, List.mem_cons, not_or] at h
    have hm : (m.id == mid) = false := by
      have := Ne.symm h.1
      simp [this]
    simp [patchFirstMsg, hm, patchFirstMsg_split mid f ph hph mp ms h.2]

theorem contentAppend_id (c : String) (m : Message) : (contentAppend c m).id = m.id := rfl

theorem sessionChunkPatch_id (cid mid c : String) (s : ChatSession) :
    (sessionChunkPatch cid mid c s).id = s.id := by
  by_cases hs : s.id == cid <;> simp [sessionChunkPatch, hs]

theorem find_patchFirstMsg_chunk (mid c : String) :
    ∀ msgs : List Message,
      (patchFirstMsg mid (contentAppend c) msgs).find? (fun m => m.id == mid) =
        (msgs.find? (fun m => m.id == mid)).map (contentAppend c)
  | [] => rfl
  | m :: rest => by
    by_cases hm : m.id == mid
    · simp [patchFirstMsg, hm, List.find?, contentAppend]
    · simp only [patchFirstMsg, hm, if_neg, Bool.false_eq_true, not_false_eq_true]
      simp [List.find?, hm, find_patchFirstMsg_chunk mid c rest]

theorem placeholderContent_chunk (cid mid c : String) :
    ∀ sessions : List ChatSession,
      placeholderContent cid mid (onChunkUpdate cid mid c sessions) =
        (placeholderContent cid mid sessions).map (fun t => t ++ c)
  | [] => rfl
  | s :: rest => by
    by_cases hs : s.id == cid
    · simp only [onChunkUpdate, List.map_cons, placeholderContent, List.find?,
        sessionChunkPatch, hs, if_pos]
      rw [find_patchFirstMsg_chunk]
      cases s.messages.find? (fun m => m.id == mid) with
      | none => rfl
      | some m => rfl
    · have ih := placeholderContent_chunk cid mid c rest
      simp only [onChunkUpdate, List.map_cons, placeholderContent, List.find?,
        sessionChunkPatch, hs, if_neg, Bool.false_eq_true, not_false_eq_true] at ih ⊢
      exact ih

theorem placeholderContent_title (cid mid t : String) :
    ∀ sessions : List ChatSession,
      placeholderContent cid mid (setTitleUpdate cid t sessions) =
        placeholderContent cid mid sessions
  | [] => rfl
  | s :: rest => by
    by_cases hs : s.id == cid
    · simp [setTitleUpdate, placeholderContent, List.find?, sessionTitlePatch, hs]
    · have ih := placeholderContent_title cid mid t rest
      simp only [setTitleUpdate, placeholderContent, List.find?, sessionTitlePatch, hs,
        if_neg, Bool.false_eq_true, not_false_eq_true] at ih ⊢
      exact ih

theorem applyEvents_content (cid mid : String) (ctxLen : Nat) (title : String) :
    ∀ (evs : List Ev) (st : AppState) (t : String), errorFree evs = true →
      placeholderContent cid mid st.sessions = some t →
      placeholderContent cid mid
          ((applyEvents cid mid ctxLen title evs st).1.sessions) =
        some (t ++ strConcat (chunkTexts evs))
  | [], st, t, _, hp => by
    simpa [applyEvents, chunkTexts, strConcat, strAppend_empty] using hp
  | Ev.fetch :: rest, st, t, he, hp => by
    simp only [errorFree] at he
    simpa [applyEvents, chunkTexts] using
      applyEvents_content cid mid ctxLen title rest st t he hp
  | Ev.chunk c :: rest, st, t, he, hp => by
    simp only [errorFree] at he
    have hp2 : placeholderContent cid mid (appOnChunk cid mid c st).sessions =
        some (t ++ c) := by
      simp [appOnChunk, placeholderContent_chunk, hp]
    have ih := applyEvents_content cid mid ctxLen title rest (appOnChunk cid mid c st)
      (t ++ c) he hp2
    simpa [applyEvents, chunkTexts, strConcat_cons_left] using ih
  | Ev.complete x :: rest, st, t, he, hp => by
    simp only [errorFree] at he
    by_cases hctx : ctxLen ≤ 1
    · have hp2 : placeholderContent cid mid
          (appOnComplete cid ctxLen title st).1.sessions = some t := by
        simp [appOnComplete, hctx, placeholderContent_title, hp]
      have ih := applyEvents_content cid mid ctxLen title rest
        (appOnComplete cid ctxLen title st).1 t he hp2
      simpa [applyEvents, chunkTexts] using ih
    · have hp2 : placeholderContent cid mid
          (appOnComplete cid ctxLen title st).1.sessions = some t := by
        simp [appOnComplete, hctx, hp]
      have ih := applyEvents_content cid mid ctxLen title rest
        (appOnComplete cid ctxLen title st).1 t he hp2
      simpa [applyEvents, chunkTexts] using ih
  | Ev.error m :: rest, st, t, he, hp => by
    simp [errorFree] at he

/-! ## Helper lemmas: trace shape of streamResponse -/

theorem runLines_done_shape :
    ∀ (ls : List (List Char)) (acc : String), (runLines ls acc).2.2 = true →
      ∃ pre, (runLines ls acc).1 = pre ++ [Ev.complete (runLines ls acc).2.1] ∧
        pre.all isChunkEv = true
  | [], acc, h => by simp [runLines] at h
  | l :: ls, acc, h => by
    rcases hpl : processLine l with _ | s | _
    · refine ⟨[], ?_, rfl⟩
      simp [runLines, hpl]
    · simp only [runLines, hpl] at h ⊢
      obtain ⟨pre, hpre, hall⟩ := runLines_done_shape ls (acc ++ s) h
      exact ⟨Ev.chunk s :: pre, by simp [hpre], by simp [hall, isChunkEv]⟩
    · simp only [runLines, hpl] at h ⊢
      exact runLines_done_shape ls acc h

theorem runLines_not_done_chunks :
    ∀ (ls : List (List Char)) (acc : String), (runLines ls acc).2.2 = false →
      (runLines ls acc).1.all isChunkEv = true
  | [], acc, _ => by simp [runLines]
  | l :: ls, acc, h => by
    rcases hpl : processLine l with _ | s | _
    · simp [runLines, hpl] at h
    · simp only [runLines, hpl] at h ⊢
      simp [isChunkEv, runLines_not_done_chunks ls (acc ++ s) h]
    · simp only [runLines, hpl] at h ⊢
      exact runLines_not_done_chunks ls acc h

theorem runReads_done_shape :
    ∀ (rs : List (List Char)) (acc : String), (runReads rs acc).2.2 = true →
      ∃ pre, (runReads rs acc).1 = pre ++ [Ev.complete (runReads rs acc).2.1] ∧
        pre.all isChunkEv = true
  | [], acc, h => by simp [runReads] at h
  | r :: rs, acc, h => by
    by_cases hd : (runLines (lineSplit r) acc).2.2
    · simp only [runReads, hd, if_pos] at h ⊢
      exact runLines_done_shape (lineSplit r) acc hd
    · simp only [runReads, hd, Bool.false_eq_true, if_neg, not_false_eq_true] at h ⊢
      obtain ⟨pre, hpre, hall⟩ :=
        runReads_done_shape rs (runLines (lineSplit r) acc).2.1 h
      refine ⟨(runLines (lineSplit r) acc).1 ++ pre, ?_, ?_⟩
      · simp [hpre, List.append_assoc]
      · simp only [List.all_append, Bool.and_eq_true]
        exact ⟨runLines_not_done_chunks (lineSplit r) acc (by simpa using hd), hall⟩

theorem runReads_not_done_chunks :
    ∀ (rs : List (List Char)) (acc : String), (runReads rs acc).2.2 = false →
      (runReads rs acc).1.all isChunkEv = true
  | [], acc, _ => by simp [runReads]
  | r :: rs, acc, h => by
    by_cases hd : (runLines (lineSplit r) acc).2.2
    · simp only [runReads, hd, if_pos] at h
      exact absurd h (by simp [hd])
    · simp only [runReads, hd, Bool.false_eq_true, if_neg, not_false_eq_true] at h ⊢
      simp only [List.all_append, Bool.and_eq_true]
      exact ⟨runLines_not_done_chunks (lineSplit r) acc (by simpa using hd),
        runReads_not_done_chunks rs (runLines (lineSplit r) acc).2.1 h⟩

theorem gemRun_chunks :
    ∀ (ts : List (Option String)) (acc : String), (gemRun ts acc).1.all isChunkEv = true
  | [], acc => by simp [gemRun]
  | none :: ts, acc => by
    simpa [gemRun] using gemRun_chunks ts acc
  | some s :: ts, acc => by
    by_cases hs : s == ""
    · simpa [gemRun, hs] using gemRun_chunks ts acc
    · simp only [gemRun, hs, Bool.false_eq_true, if_neg, not_false_eq_true]
      simp [isChunkEv, gemRun_chunks ts (acc ++ s)]

theorem chunks_not_terminal (evs : List Ev) (h : evs.all isChunkEv = true) :
    evs.all (fun e => !isTerminal e) = true := by
  rw [List.all_eq_true] at h ⊢
  intro e he
  have := h e he
  cases e <;> simp_all [isChunkEv, isTerminal]

/-- The trace of streamGemini: chunk events, followed by exactly one
completion when nothing was thrown. -/
theorem streamGemini_shape (genv : GeminiEnv) :
    ∃ pre, pre.all isChunkEv = true ∧
      ((∃ full, (streamGemini genv).1 = pre ++ [Ev.complete full] ∧
          (streamGemini genv).2 = none) ∨
        ((streamGemini genv).1 = pre ∧ ∃ m, (streamGemini genv).2 = some m)) := by
  cases genv with
  | sdkFail m => exact ⟨[], rfl, Or.inr ⟨rfl, m, rfl⟩⟩
  | stream texts iterFail =>
    cases iterFail with
    | none =>
      exact ⟨(gemRun texts "").1, gemRun_chunks texts "",
        Or.inl ⟨(gemRun texts "").2, by simp [streamGemini], by simp [streamGemini]⟩⟩
    | some m =>
      exact ⟨(gemRun texts "").1, gemRun_chunks texts "",
        Or.inr ⟨by simp [streamGemini], m, by simp [streamGemini]⟩⟩

/-- The trace of the REST adapter: the fetch, then chunk events, then exactly
one completion when nothing was thrown. -/
theorem streamStandardOpenAI_shape (renv : RestEnv) :
    ∃ pre, pre.all (fun e => !isTerminal e) = true ∧
      ((∃ full, (streamStandardOpenAI renv).1 = pre ++ [Ev.complete full] ∧
          (streamStandardOpenAI renv).2 = none) ∨
        ((streamStandardOpenAI renv).1 = pre ∧
          ∃ m, (streamStandardOpenAI renv).2 = some m)) := by
  cases renv with
  | fetchFail m => exact ⟨[Ev.fetch], by decide, Or.inr ⟨rfl, _, rfl⟩⟩
  | httpError status body => exact ⟨[Ev.fetch], by decide, Or.inr ⟨rfl, _, rfl⟩⟩
  | noBody => exact ⟨[Ev.fetch], by decide, Or.inr ⟨rfl, _, rfl⟩⟩
  | stream reads readFail =>
    by_cases hd : (runReads reads "").2.2
    · obtain ⟨pre, hpre, hall⟩ := runReads_done_shape reads "" hd
      refine ⟨Ev.fetch :: pre, ?_, Or.inl ⟨(runReads reads "").2.1, ?_, ?_⟩⟩
      · simp only [List.all_cons, Bool.and_eq_true]
        exact ⟨by decide, chunks_not_terminal pre hall⟩
      · simp [streamStandardOpenAI, hd, hpre]
      · simp [streamStandardOpenAI, hd]
    · have hch := runReads_not_done_chunks reads "" (by simpa using hd)
      cases readFail with
      | some m =>
        refine ⟨Ev.fetch :: (runReads reads "").1, ?_, Or.inr ⟨?_, m, ?_⟩⟩
        · simp only [List.all_cons, Bool.and_eq_true]
          exact ⟨by decide, chunks_not_terminal _ hch⟩
        · simp [streamStandardOpenAI, hd]
        · simp [streamStandardOpenAI, hd]
      | none =>
        refine ⟨Ev.fetch :: (runReads reads "").1, ?_,
          Or.inl ⟨(runReads reads "").2.1, ?_, ?_⟩⟩
        · simp only [List.all_cons, Bool.and_eq_true]
          exact ⟨by decide, chunks_not_terminal _ hch⟩
        · simp [streamStandardOpenAI, hd]
        · simp [streamStandardOpenAI, hd]

/-- The trace of every streamResponse call is zero or more non-terminal
events followed by exactly one terminal event. -/
theorem streamResponse_shape (settings : AppSettings) (genv : GeminiEnv) (renv : RestEnv) :
    ∃ pre last, streamResponse settings genv renv = pre ++ [last] ∧
      isTerminal last = true ∧ pre.all (fun e => !isTerminal e) = true := by
  rcases hm : settings.activeModel with _ | _ | _
  case Gemini =>
    obtain ⟨pre, hall, hcase⟩ := streamGemini_shape genv
    rcases hcase with ⟨full, h1, h2⟩ | ⟨h1, m, h2⟩
    · exact ⟨pre, Ev.complete full, by simp [streamResponse, hm, h1, h2],
        rfl, chunks_not_terminal pre hall⟩
    · exact ⟨pre, Ev.error m, by simp [streamResponse, hm, h1, h2],
        rfl, chunks_not_terminal pre hall⟩
  all_goals {
    by_cases hk : keyMissing (settings.apiKeys settings.activeModel)
    · refine ⟨[], Ev.error ("Please provide an API key for " ++
        providerName settings.activeModel ++ " in Settings."), ?_, rfl, rfl⟩
      simp [streamResponse, hm, hm ▸ hk]
    · obtain ⟨pre, hall, hcase⟩ := streamStandardOpenAI_shape renv
      rcases hcase with ⟨full, h1, h2⟩ | ⟨h1, m, h2⟩
      · exact ⟨pre, Ev.complete full,
          by simp [streamResponse, hm, hm ▸ hk, h1, h2], rfl, hall⟩
      · exact ⟨pre, Ev.error m,
          by simp [streamResponse, hm, hm ▸ hk, h1, h2], rfl, hall⟩ }

/-! ## Helper lemmas: callbacks on absent targets and the title count -/

theorem map_eq_self_of {α : Type} (f : α → α) :
    ∀ l : List α, (∀ a ∈ l, f a = a) → l.map f = l
  | [], _ => rfl
  | a :: l, h => by
    simp [h a (by simp), map_eq_self_of f l (fun x hx => h x (by simp [hx]))]

theorem sessionChunkPatch_absent (cid mid c : String) (s : ChatSession)
    (h : s.id ≠ cid) : sessionChunkPatch cid mid c s = s := by
  simp [sessionChunkPatch, h]

theorem sessionErrorPatch_absent (cid mid emsg : String) (s : ChatSession)
    (h : s.id ≠ cid) : sessionErrorPatch cid mid emsg s = s := by
  simp [sessionErrorPatch, h]

theorem sessionTitlePatch_absent (cid title : String) (s : ChatSession)
    (h : s.id ≠ cid) : sessionTitlePatch cid title s = s := by
  simp [sessionTitlePatch, h]

theorem applyEvents_count_first (cid mid : String) (ctxLen : Nat) (title : String)
    (h : ctxLen ≤ 1) :
    ∀ (evs : List Ev) (st : AppState),
      (applyEvents cid mid ctxLen title evs st).2 = evs.countP isCompleteEv
  | [], st => by simp [applyEvents]
  | Ev.fetch :: rest, st => by
    simp [applyEvents, List.countP_cons, isCompleteEv,
      applyEvents_count_first cid mid ctxLen title h rest st]
  | Ev.chunk c :: rest, st => by
    simp [applyEvents, List.countP_cons, isCompleteEv,
      applyEvents_count_first cid mid ctxLen title h rest _]
  | Ev.complete x :: rest, st => by
    simp [applyEvents, appOnComplete, h, List.countP_cons, isCompleteEv,
      applyEvents_count_first cid mid ctxLen title h rest _, Nat.add_comm]
  | Ev.error m :: rest, st => by
    simp [applyEvents, List.countP_cons, isCompleteEv,
      applyEvents_count_first cid mid ctxLen title h rest _]

theorem applyEvents_count_later (cid mid : String) (ctxLen : Nat) (title : String)
    (h : ¬ ctxLen ≤ 1) :
    ∀ (evs : List Ev) (st : AppState),
      (applyEvents cid mid ctxLen title evs st).2 = 0
  | [], st => by simp [applyEvents]
  | Ev.fetch :: rest, st => by
    simp [applyEvents, applyEvents_count_later cid mid ctxLen title h rest st]
  | Ev.chunk c :: rest, st => by
    simp [applyEvents, applyEvents_count_later cid mid ctxLen title h rest _]
  | Ev.complete x :: rest, st => by
    simp [applyEvents, appOnComplete, h,
      applyEvents_count_later cid mid ctxLen title h rest _]
  | Ev.error m :: rest, st => by
    simp [applyEvents, applyEvents_count_later cid mid ctxLen title h rest _]

theorem countP_complete_zero (pre : List Ev)
    (h : pre.all (fun e => !isTerminal e) = true) : pre.countP isCompleteEv = 0 := by
  rw [List.countP_eq_zero]
  intro e he
  have := (List.all_eq_true.mp h) e he
  cases e <;> simp_all [isTerminal, isCompleteEv]

/-! ## The claims -/

/-- Claim C1, counterexample: the very same frame (delta text Hi) delivered
unsplit yields one chunk and final placeholder content Hi, but split across a
read boundary it is dropped: no chunk is emitted, completion fires with the
empty accumulator, and the placeholder's final content is the empty string,
not Hi.  The final content therefore depends on how frames fall across read
boundaries, contradicting the claim. -/
theorem c1_split_frame_counterexample :
    streamStandardOpenAI (.stream [splitReadA, splitReadB] none) =
      ([Ev.fetch, Ev.complete ""], none) ∧
    streamStandardOpenAI (.stream [wholeRead] none) =
      ([Ev.fetch, Ev.chunk "Hi", Ev.complete "Hi"], none) ∧
    placeholderContent "s" "m"
        ((applyEvents "s" "m" 2 "t"
          (streamStandardOpenAI (.stream [splitReadA, splitReadB] none)).1
          demoState).1.sessions) = some "" ∧
    placeholderContent "s" "m"
        ((applyEvents "s" "m" 2 "t"
          (streamStandardOpenAI (.stream [wholeRead] none)).1
          demoState).1.sessions) = some "Hi" ∧
    ("" : String) ≠ "Hi" := by
  refine ⟨by decide, by decide, by decide, by decide, by decide⟩

/-- Claim C1, amended: for canonical frames carrying nonempty delta texts
c1..cn free of characters that JSON-escape and of the opening bracket (so the
[DONE] test cannot fire inside the text), delivered with every frame wholly
inside one read (any grouping of whole frames into reads), the adapter throws
nothing, emits exactly the chunks c1..cn in order followed by completion with
their concatenation, and the placeholder that started empty ends with content
c1 ++ .. ++ cn.  A frame split across two reads is instead dropped (it
contributes its delta zero times, never twice), as the counterexample
shows. -/
theorem c1_placeholder_concat (ds : List String) (groups : List (List String))
    (st : AppState) (cid mid : String) (ctxLen : Nat) (title : String)
    (hg : groups.flatten = ds)
    (hsafe : ∀ d ∈ ds, SafeDelta d)
    (hph : placeholderContent cid mid st.sessions = some "") :
    (streamStandardOpenAI (.stream (groups.map framesRead ++ [doneRead]) none)).2 = none ∧
    (streamStandardOpenAI (.stream (groups.map framesRead ++ [doneRead]) none)).1 =
      Ev.fetch :: ds.map Ev.chunk ++ [Ev.complete (strConcat ds)] ∧
    chunkTexts
      (streamStandardOpenAI (.stream (groups.map framesRead ++ [doneRead]) none)).1 = ds ∧
    placeholderContent cid mid
        ((applyEvents cid mid ctxLen title
          (streamStandardOpenAI (.stream (groups.map framesRead ++ [doneRead]) none)).1
          st).1.sessions) =
      some (strConcat ds) := by
  subst hg
  have hgs : ∀ g ∈ groups, ∀ d ∈ g, SafeDelta d := fun g hgm d hd =>
    hsafe d (List.mem_flatten.mpr ⟨g, hgm, hd⟩)
  have hadapter := restAdapter_frames groups hgs
  have h2 : (streamStandardOpenAI
      (.stream (groups.map framesRead ++ [doneRead]) none)).1 =
      Ev.fetch :: groups.flatten.map Ev.chunk ++
        [Ev.complete (strConcat groups.flatten)] := by
    rw [hadapter]
  have h1 : (streamStandardOpenAI
      (.stream (groups.map framesRead ++ [doneRead]) none)).2 = none := by
    rw [hadapter]
  refine ⟨h1, h2, ?_, ?_⟩
  · rw [h2, chunkTexts_canonical]
  · rw [h2]
    have := applyEvents_content cid mid ctxLen title
      (Ev.fetch :: groups.flatten.map Ev.chunk ++
        [Ev.complete (strConcat groups.flatten)]) st ""
      (errorFree_canonical _ _) hph
    rw [this, chunkTexts_canonical, strEmpty_append]

/-- Claim C1, witness: two frames Hi and a space-led there, in two reads, end
the placeholder at their concatenation. -/
theorem c1_placeholder_concat_witness :
    SafeDelta "Hi" ∧
    placeholderContent "s" "m"
        ((applyEvents "s" "m" 2 "t"
          (streamStandardOpenAI
            (.stream ([["Hi"], [" there"]].map framesRead ++ [doneRead]) none)).1
          demoState).1.sessions) =
      some (strConcat ["Hi", " there"]) := by
  have h := c1_placeholder_concat ["Hi", " there"] [["Hi"], [" there"]] demoState
    "s" "m" 2 "t" rfl (by decide) (by decide)
  exact ⟨by decide, h.2.2.2⟩

/-- Claim C2: every streamResponse call emits zero or more non-terminal
events (the fetch and the chunks) followed by exactly one terminal event
(one completion or one error); an exception escaping an adapter is caught
and becomes that final onError rather than propagating (streamResponse is a
total function of the adapter environment, and whenever the adapter
component throws, the trace is the adapter trace closed by the error
event). -/
theorem c2_single_terminal :
    (∀ (settings : AppSettings) (genv : GeminiEnv) (renv : RestEnv),
      ∃ pre last, streamResponse settings genv renv = pre ++ [last] ∧
        isTerminal last = true ∧ pre.all (fun e => !isTerminal e) = true) ∧
    (∀ (settings : AppSettings) (genv : GeminiEnv) (renv : RestEnv) (m : String),
      settings.activeModel = ModelProvider.Gemini →
      (streamGemini genv).2 = some m →
      streamResponse settings genv renv = (streamGemini genv).1 ++ [Ev.error m]) ∧
    (∀ (settings : AppSettings) (genv : GeminiEnv) (renv : RestEnv) (m : String),
      settings.activeModel ≠ ModelProvider.Gemini →
      keyMissing (settings.apiKeys settings.activeModel) = false →
      (streamStandardOpenAI renv).2 = some m →
      streamResponse settings genv renv =
        (streamStandardOpenAI renv).1 ++ [Ev.error m]) := by
  refine ⟨streamResponse_shape, ?_, ?_⟩
  · intro settings genv renv m hm hthrown
    simp [streamResponse, hm, hthrown]
  · intro settings genv renv m hm hk hthrown
    rcases hmod : settings.activeModel with _ | _ | _
    · exact absurd hmod hm
    all_goals simp [streamResponse, hmod, hmod ▸ hk, hthrown]

/-- Claim C2, witness: with the SDK provider active and the SDK call
throwing, the trace is exactly the converted error. -/
theorem c2_single_terminal_witness :
    streamResponse (demoSettings ModelProvider.Gemini none) (.sdkFail "boom")
        (.stream [] none) =
      (streamGemini (.sdkFail "boom")).1 ++ [Ev.error "boom"] :=
  c2_single_terminal.2.1 (demoSettings ModelProvider.Gemini none)
    (.sdkFail "boom") (.stream [] none) "boom" rfl rfl

/-- Claim C3: with OpenAI or DeepSeek active and a missing or empty key, the
trace is exactly one error event: no chunk was forwarded and no fetch was
issued, so the failure is decided synchronously before any network call. -/
theorem c3_missing_key (settings : AppSettings) (genv : GeminiEnv) (renv : RestEnv)
    (hp : settings.activeModel = ModelProvider.OpenAI ∨
      settings.activeModel = ModelProvider.DeepSeek)
    (hk : settings.apiKeys settings.activeModel = none ∨
      settings.apiKeys settings.activeModel = some "") :
    streamResponse settings genv renv =
      [Ev.error ("Please provide an API key for " ++
        providerName settings.activeModel ++ " in Settings.")] ∧
    (streamResponse settings genv renv).all
      (fun e => !isFetchEv e && !isChunkEv e) = true := by
  have hkm : keyMissing (settings.apiKeys settings.activeModel) = true := by
    rcases hk with h | h <;> simp [keyMissing, h]
  have h1 : streamResponse settings genv renv =
      [Ev.error ("Please provide an API key for " ++
        providerName settings.activeModel ++ " in Settings.")] := by
    rcases hp with hm | hm <;> simp [streamResponse, hm, hm ▸ hkm]
  exact ⟨h1, by rw [h1]; simp [isFetchEv, isChunkEv]⟩

/-- Claim C3, witness: OpenAI active, no key configured. -/
theorem c3_missing_key_witness :
    streamResponse (demoSettings ModelProvider.OpenAI none) (.sdkFail "x")
        (.stream [wholeRead] none) =
      [Ev.error "Please provide an API key for OpenAI in Settings."] :=
  (c3_missing_key (demoSettings ModelProvider.OpenAI none) (.sdkFail "x")
    (.stream [wholeRead] none) (Or.inl rfl) (Or.inl rfl)).1

/-- Claim C4: a line containing the [DONE] marker ends the stream with
completion carrying the text accumulated so far; a line neither containing
the marker nor starting with the data marker is skipped; a data line whose
JSON carries a delta is appended and forwarded; and the concrete body of one
data frame with text Hi followed by the [DONE] frame yields exactly one
chunk Hi and then completion with full text Hi. -/
theorem c4_sse_line_protocol :
    (∀ line : List Char, hasSub doneMark line = true → processLine line = .finish) ∧
    (∀ (line : List Char) (ls : List (List Char)) (acc : String),
      hasSub doneMark line = true →
      runLines (line :: ls) acc = ([Ev.complete acc], acc, true)) ∧
    (∀ line : List Char, hasSub doneMark line = false →
      dataMark.isPrefixOf line = false → processLine line = .skip) ∧
    (∀ (line : List Char) (v : JVal) (s : String), hasSub doneMark line = false →
      dataMark.isPrefixOf line = true → jsonParse (line.drop 6) = some v →
      extractContent v = some s → processLine line = .piece s) ∧
    streamResponse (demoSettings ModelProvider.OpenAI (some "k")) (.sdkFail "x")
        (.stream [wholeRead] none) =
      [Ev.fetch, Ev.chunk "Hi", Ev.complete "Hi"] := by
  refine ⟨?_, ?_, ?_, ?_, by decide⟩
  · intro line h
    simp [processLine, h]
  · intro line ls acc h
    simp [runLines, processLine, h]
  · intro line h1 h2
    simp [processLine, h1, h2]
  · intro line v s h1 h2 h3 h4
    simp [processLine, h1, h2, h3, h4]

/-- Claim C4, witness: the three line kinds at concrete lines. -/
theorem c4_sse_line_protocol_witness :
    processLine "data: [DONE]".data = .finish ∧
    processLine ": keepalive".data = .skip ∧
    processLine (sseFrame "Hi") = .piece "Hi" := by
  refine ⟨c4_sse_line_protocol.1 _ (by decide),
    c4_sse_line_protocol.2.2.1 _ (by decide) (by decide),
    c4_sse_line_protocol.2.2.2.1 (sseFrame "Hi") (deltaJson "Hi") "Hi"
      (by decide) (by decide) (by rfl) (by rfl)⟩

/-- Claim C5: when no session carries the turn's captured session id (the
session was deleted mid-stream), the chunk, error and title-resolution
updates all leave the session list unchanged: the update is dropped, nothing
is recreated, and (the updates being total functions) nothing throws.
Likewise a chunk or error patch with no matching placeholder leaves the
message list unchanged, and deleteChat removes every session with the
deleted id. -/
theorem c5_deleted_session_safe (cid mid chunk emsg title : String)
    (sessions : List ChatSession) (h : ∀ s ∈ sessions, s.id ≠ cid) :
    onChunkUpdate cid mid chunk sessions = sessions ∧
    onErrorUpdate cid mid emsg sessions = sessions ∧
    setTitleUpdate cid title sessions = sessions ∧
    (∀ msgs : List Message, mid ∉ msgs.map Message.id →
      patchFirstMsg mid (contentAppend chunk) msgs = msgs ∧
      patchFirstMsg mid (errorPatch emsg) msgs = msgs) ∧
    (∀ (prev : List ChatSession) (s : ChatSession), s ∈ deleteChat cid prev →
      s.id ≠ cid) := by
  refine ⟨?_, ?_, ?_, ?_, ?_⟩
  · exact map_eq_self_of _ sessions
      (fun s hs => sessionChunkPatch_absent cid mid chunk s (h s hs))
  · exact map_eq_self_of _ sessions
      (fun s hs => sessionErrorPatch_absent cid mid emsg s (h s hs))
  · exact map_eq_self_of _ sessions
      (fun s hs => sessionTitlePatch_absent cid title s (h s hs))
  · exact fun msgs hm =>
      ⟨patchFirstMsg_not_found mid _ msgs hm, patchFirstMsg_not_found mid _ msgs hm⟩
  · intro prev s hs
    have := (List.mem_filter.mp hs).2
    simpa using this

/-- Claim C5, witness: with the only session carrying a different id, all
three callbacks leave the list unchanged. -/
theorem c5_deleted_session_safe_witness :
    onChunkUpdate "s" "m" "x" (deleteChat "s" demoState.sessions) =
      deleteChat "s" demoState.sessions ∧
    onErrorUpdate "s" "m" "boom" (deleteChat "s" demoState.sessions) =
      deleteChat "s" demoState.sessions ∧
    setTitleUpdate "s" "Title" (deleteChat "s" demoState.sessions) =
      deleteChat "s" demoState.sessions := by
  have h := c5_deleted_session_safe "s" "m" "x" "boom" "Title"
    (deleteChat "s" demoState.sessions) (by decide)
  exact ⟨h.1, h.2.1, h.2.2.1⟩

/-- Claim C6: the chunk callback leaves the selected-session pointer and the
loading flag alone and maps the stored patch over the session list; a
session with a different id than the stored one is untouched; in the stored
session only the first message with the stored placeholder id is replaced,
by a message differing from it only in its appended content; messages before
it, after it, and in sessions without the stored id are unchanged, and no
message is added or removed. -/
theorem c6_chunk_isolation (cid mid c : String) :
    (∀ st : AppState, (appOnChunk cid mid c st).currentSessionId = st.currentSessionId ∧
      (appOnChunk cid mid c st).isLoading = st.isLoading ∧
      (appOnChunk cid mid c st).sessions = onChunkUpdate cid mid c st.sessions) ∧
    (∀ sessions : List ChatSession,
      onChunkUpdate cid mid c sessions = sessions.map (sessionChunkPatch cid mid c) ∧
      (onChunkUpdate cid mid c sessions).length = sessions.length) ∧
    (∀ s : ChatSession, s.id ≠ cid → sessionChunkPatch cid mid c s = s) ∧
    (∀ s : ChatSession, s.id = cid → sessionChunkPatch cid mid c s =
      { s with messages := patchFirstMsg mid (contentAppend c) s.messages }) ∧
    (∀ msgs : List Message, mid ∉ msgs.map Message.id →
      patchFirstMsg mid (contentAppend c) msgs = msgs) ∧
    (∀ (mp ms : List Message) (ph : Message), ph.id = mid →
      mid ∉ mp.map Message.id →
      patchFirstMsg mid (contentAppend c) (mp ++ ph :: ms) =
        mp ++ contentAppend c ph :: ms) ∧
    (∀ msgs : List Message,
      (patchFirstMsg mid (contentAppend c) msgs).length = msgs.length) ∧
    (∀ m : Message, contentAppend c m = { m with content := m.content ++ c }) := by
  refine ⟨fun st => ⟨rfl, rfl, rfl⟩, fun sessions => ⟨rfl, by simp [onChunkUpdate]⟩,
    ?_, ?_, ?_, ?_, ?_, fun m => rfl⟩
  · exact fun s hs => sessionChunkPatch_absent cid mid c s hs
  · intro s hs
    simp [sessionChunkPatch, hs]
  · exact fun msgs hm => patchFirstMsg_not_found mid _ msgs hm
  · exact fun mp ms ph hph hmp => patchFirstMsg_split mid _ ph hph mp ms hmp
  · exact fun msgs => patchFirstMsg_length mid _ msgs

/-- Claim C6, witness: a chunk lands in the stored session while another
session and the selection pointer are untouched. -/
theorem c6_chunk_isolation_witness :
    (sessionChunkPatch "s" "m" "Hi"
      { id := "other", title := "t", messages := [], createdAt := 0, updatedAt := 0,
        model := ModelProvider.OpenAI }) =
      { id := "other", title := "t", messages := [], createdAt := 0, updatedAt := 0,
        model := ModelProvider.OpenAI } ∧
    (appOnChunk "s" "m" "Hi"
      { sessions := [], currentSessionId := some "other", isLoading := true
        }).currentSessionId = some "other" := by
  have h := c6_chunk_isolation "s" "m" "Hi"
  exact ⟨h.2.2.1 _ (by decide), (h.1 _).1⟩

/-- Claim C7: the error callback clears the awaiting-response indicator,
keeps the selection, and patches the first message with the stored
placeholder id in the stored session: its content becomes the Error: prefix
followed by the message of the error, its error flag becomes true, its
identity fields survive, and no message is removed. -/
theorem c7_error_patch (cid mid emsg : String) :
    (∀ st : AppState, (appOnError cid mid emsg st).isLoading = false ∧
      (appOnError cid mid emsg st).currentSessionId = st.currentSessionId ∧
      (appOnError cid mid emsg st).sessions = onErrorUpdate cid mid emsg st.sessions) ∧
    (∀ m : Message, errorPatch emsg m =
      { m with content := "Error: " ++ emsg, isError := true }) ∧
    (∀ m : Message, (errorPatch emsg m).id = m.id ∧
      (errorPatch emsg m).role = m.role ∧
      (errorPatch emsg m).timestamp = m.timestamp ∧
      (errorPatch emsg m).isError = true) ∧
    (∀ s : ChatSession, s.id = cid → sessionErrorPatch cid mid emsg s =
      { s with messages := patchFirstMsg mid (errorPatch emsg) s.messages }) ∧
    (∀ s : ChatSession, s.id ≠ cid → sessionErrorPatch cid mid emsg s = s) ∧
    (∀ (mp ms : List Message) (ph : Message), ph.id = mid →
      mid ∉ mp.map Message.id →
      patchFirstMsg mid (errorPatch emsg) (mp ++ ph :: ms) =
        mp ++ errorPatch emsg ph :: ms) ∧
    (∀ msgs : List Message,
      (patchFirstMsg mid (errorPatch emsg) msgs).length = msgs.length) := by
  refine ⟨fun st => ⟨rfl, rfl, rfl⟩, fun m => rfl, fun m => ⟨rfl, rfl, rfl, rfl⟩,
    ?_, ?_, ?_, ?_⟩
  · intro s hs
    simp [sessionErrorPatch, hs]
  · exact fun s hs => sessionErrorPatch_absent cid mid emsg s hs
  · exact fun mp ms ph hph hmp => patchFirstMsg_split mid _ ph hph mp ms hmp
  · exact fun msgs => patchFirstMsg_length mid _ msgs

/-- Claim C7, witness: the error callback on the demo placeholder. -/
theorem c7_error_patch_witness :
    sessionErrorPatch "s" "m" "boom" demoSession =
      { demoSession with
        messages := patchFirstMsg "m" (errorPatch "boom") demoSession.messages } ∧
    patchFirstMsg "m" (errorPatch "boom") ([] ++ demoMsg :: []) =
      [] ++ errorPatch "boom" demoMsg :: [] ∧
    (appOnError "s" "m" "boom" demoState).isLoading = false := by
  have h := c7_error_patch "s" "m" "boom"
  exact ⟨h.2.2.2.1 demoSession rfl, h.2.2.2.2.2.1 [] [] demoMsg rfl (by simp),
    (h.1 demoState).1⟩

/-- Claim C8: with a one-message network context, a successfully completing
trace invokes the title generator exactly once; with a two-or-more-message
context (any later turn) it is never invoked; and when the resolved title is
committed, a session list without the stored id is left unchanged (the title
is set only if the session still exists) while the stored session gets
exactly its title replaced. -/
theorem c8_title_first_turn :
    (∀ (settings : AppSettings) (genv : GeminiEnv) (renv : RestEnv)
      (cid mid title : String) (st : AppState) (ctx : List Message)
      (pre : List Ev) (f : String),
      ctx.length = 1 →
      streamResponse settings genv renv = pre ++ [Ev.complete f] →
      (applyEvents cid mid ctx.length title
        (streamResponse settings genv renv) st).2 = 1) ∧
    (∀ (cid mid title : String) (st : AppState) (ctx : List Message)
      (evs : List Ev), 2 ≤ ctx.length →
      (applyEvents cid mid ctx.length title evs st).2 = 0) ∧
    (∀ (cid title : String) (sessions : List ChatSession),
      (∀ s ∈ sessions, s.id ≠ cid) → setTitleUpdate cid title sessions = sessions) ∧
    (∀ (cid title : String) (s : ChatSession), s.id = cid →
      sessionTitlePatch cid title s = { s with title := title }) ∧
    (∀ (cid title : String) (s : ChatSession), s.id ≠ cid →
      sessionTitlePatch cid title s = s) := by
  refine ⟨?_, ?_, ?_, ?_, ?_⟩
  · intro settings genv renv cid mid title st ctx pre f hlen htr
    obtain ⟨pre0, last, hshape, hterm, hnt⟩ := streamResponse_shape settings genv renv
    have hco : pre ++ [Ev.complete f] = pre0 ++ [last] := htr.symm.trans hshape
    have hlen2 : pre.length = pre0.length := by
      have := congrArg List.length hco
      simp at this
      omega
    obtain ⟨hpq, _⟩ := List.append_inj hco hlen2
    have hz : pre.countP isCompleteEv = 0 := by
      rw [hpq]
      exact countP_complete_zero pre0 hnt
    rw [htr, applyEvents_count_first cid mid ctx.length title (by omega),
      List.countP_append, hz]
    simp [isCompleteEv]
  · intro cid mid title st ctx evs hlen
    exact applyEvents_count_later cid mid ctx.length title (by omega) evs st
  · intro cid title sessions h
    exact map_eq_self_of _ sessions
      (fun s hs => sessionTitlePatch_absent cid title s (h s hs))
  · intro cid title s hs
    simp [sessionTitlePatch, hs]
  · exact fun cid title s hs => sessionTitlePatch_absent cid title s hs

/-- Claim C8, witness: a one-message context with a completing trace invokes
the generator once; a two-message context never does; committing the title
after the session was deleted changes nothing. -/
theorem c8_title_first_turn_witness :
    (applyEvents "s" "m" ([demoMsg].length) "Title"
      (streamResponse (demoSettings ModelProvider.Gemini none) (.stream [] none)
        (.stream [] none)) demoState).2 = 1 ∧
    (applyEvents "s" "m" ([demoMsg, demoMsg].length) "Title"
      (streamResponse (demoSettings ModelProvider.Gemini none) (.stream [] none)
        (.stream [] none)) demoState).2 = 0 ∧
    setTitleUpdate "s" "Title" (deleteChat "s" demoState.sessions) =
      deleteChat "s" demoState.sessions := by
  have h := c8_title_first_turn
  exact ⟨h.1 (demoSettings ModelProvider.Gemini none) (.stream [] none)
      (.stream [] none) "s" "m" "Title" demoState [demoMsg] [] "" rfl (by decide),
    h.2.1 "s" "m" "Title" demoState [demoMsg, demoMsg]
      (streamResponse (demoSettings ModelProvider.Gemini none) (.stream [] none)
        (.stream [] none)) (by decide),
    h.2.2.1 "s" "Title" (deleteChat "s" demoState.sessions) (by decide)⟩

/-- Claim C9: a send with whitespace-only text and no image is stopped by
the input guard, and a send with no active session is stopped by the
handler, in both cases with no state change, no appended message, no
placeholder and no stream (the pipeline result is none). -/
theorem c9_send_preconditions :
    (∀ (st : AppState) (text : String) (image : Option String) (isLoading : Bool)
      (now : Nat), (trimBoth text.data).isEmpty = true → image = none →
      sendPipeline st text image isLoading now = none) ∧
    (∀ (st : AppState) (text : String) (image : Option String) (isLoading : Bool)
      (now : Nat), st.currentSessionId = none →
      sendPipeline st text image isLoading now = none) ∧
    (∀ (st : AppState) (text : String) (image : Option String) (now : Nat),
      st.currentSessionId = none → handleSendMessage st text image now = none) := by
  refine ⟨?_, ?_, ?_⟩
  · intro st text image isLoading now h1 h2
    simp [sendPipeline, chatInputHandleSend, keyMissing, h1, h2]
  · intro st text image isLoading now h
    rcases hci : chatInputHandleSend text image isLoading with _ | ti
    · simp [sendPipeline, hci]
    · simp [sendPipeline, hci, handleSendMessage, h]
  · intro st text image now h
    simp [handleSendMessage, h]

/-- Claim C9, witness: a whitespace-only send and a send with no selected
session are both rejected. -/
theorem c9_send_preconditions_witness :
    sendPipeline demoState "   " none false 5 = none ∧
    sendPipeline { sessions := [], currentSessionId := none, isLoading := false }
      "hello" none false 5 = none := by
  have h := c9_send_preconditions
  exact ⟨h.1 demoState "   " none false 5 (by decide) rfl,
    h.2.1 { sessions := [], currentSessionId := none, isLoading := false }
      "hello" none false 5 rfl⟩

/-- Claim C10: under the DeepSeek provider every conversation message is
serialized as a plain role/text object — a carried image is silently
omitted — while under OpenAI a message with a nonempty image is serialized
as the multimodal text plus image parts. -/
theorem c10_deepseek_image_omitted :
    (∀ (si : String) (msgs : List Message),
      buildPayloadMessages ModelProvider.DeepSeek si msgs =
        { role := "system", content := PayloadContent.text si } ::
          msgs.map (fun m =>
            ({ role := roleName m.role, content := PayloadContent.text m.content } :
              PayloadMsg))) ∧
    (∀ m : Message, payloadOf ModelProvider.DeepSeek m =
      { role := roleName m.role, content := PayloadContent.text m.content }) ∧
    (∀ (m : Message) (img : String), m.image = some img → img ≠ "" →
      payloadOf ModelProvider.OpenAI m =
        { role := roleName m.role, content := PayloadContent.parts m.content img }) := by
  have h2 : ∀ m : Message, payloadOf ModelProvider.DeepSeek m =
      { role := roleName m.role, content := PayloadContent.text m.content } := by
    intro m
    rcases hm : m.image with _ | img
    · simp [payloadOf, hm]
    · simp [payloadOf, hm]
  refine ⟨?_, h2, ?_⟩
  · intro si msgs
    rw [buildPayloadMessages, funext h2]
  · intro m img hm hne
    simp [payloadOf, hm, hne]

/-- Claim C10, witness: the same image-carrying message under the two
providers. -/
theorem c10_deepseek_image_omitted_witness :
    payloadOf ModelProvider.DeepSeek
      { id := "1", role := .user, content := "look", timestamp := 0,
        image := some "data:image/jpeg;base64,xyz", isError := false } =
      { role := "user", content := PayloadContent.text "look" } ∧
    payloadOf ModelProvider.OpenAI
      { id := "1", role := .user, content := "look", timestamp := 0,
        image := some "data:image/jpeg;base64,xyz", isError := false } =
      { role := "user", content := PayloadContent.parts "look"
          "data:image/jpeg;base64,xyz" } := by
  have h := c10_deepseek_image_omitted
  exact ⟨h.2.1 _, h.2.2 _ "data:image/jpeg;base64,xyz" rfl (by decide)⟩

end Lyra
